import Mathlib

/-!
Verification of the subtitle aligner in `compare-subs.py`
(repository `movie-subtitles-comparison`).

The aligner matches each English reference cue against a track of
candidate (Persian) cues.  Times travel through the program as strings
such as "00:01:02.500"; `time_to_seconds_simple` converts them to
seconds and `find_best_match_simple` picks a candidate cue for a
reference window.

Python floats are modelled by `ℚ` (the spec measures overlap on real
intervals, with no rounding), and the cue triples `(start, end, text)`
by `ℚ × ℚ × String` after time conversion, or `String × String ×
String` before it.
-/

namespace CompareSubs

/-- Python's blank test `not ps_text.strip()` (line 199 of
`compare-subs.py`): `str.strip()` with no argument drops surrounding
whitespace, so the stripped text is falsy exactly when every character
of the text is whitespace. -/
def isBlank (t : String) : Bool :=
  t.toList.all Char.isWhitespace

/-- Temporal overlap of the reference window `[es, ee]` with a candidate
window `[ps, pe]`, exactly as computed at lines 205-207 of
`compare-subs.py`:
`overlap = max(0, min(eng_end_sec, ps_end_sec) - max(eng_start_sec, ps_start_sec))`. -/
def overlap (es ee ps pe : ℚ) : ℚ :=
  max 0 (min ee pe - max es ps)

/-- The selection score computed at lines 209-210 of `compare-subs.py`:
`start_diff = abs(eng_start_sec - ps_start_sec)`;
`score = overlap * 10 - start_diff`. -/
def score (es ee ps pe : ℚ) : ℚ :=
  overlap es ee ps pe * 10 - |es - ps|

/-- One candidate cue after time conversion: (start seconds, end seconds, text). -/
abbrev NumCue := ℚ × ℚ × String

/-- The loop of `find_best_match_simple` (lines 198-214): scan the track,
skip candidates with blank text (`if not ps_text.strip(): continue`),
and keep the candidate with the strictly greatest score seen so far.
The accumulator is the pair `(best_match, best_score)`. -/
def findLoop (es ee : ℚ) : List NumCue → String × ℚ → String × ℚ
  | [], acc => acc
  | (ps, pe, t) :: rest, (b, bs) =>
    if isBlank t then
      findLoop es ee rest (b, bs)
    else if score es ee ps pe > bs then
      findLoop es ee rest (t, score es ee ps pe)
    else
      findLoop es ee rest (b, bs)

/-- `find_best_match_simple` after the two reference times have been
converted to seconds: if the track is empty return `""`
(line 189-190), otherwise run the loop starting from
`best_match = ""`, `best_score = -1` (lines 195-196) and return the
final `best_match` (line 216). -/
def findBestMatchNum (es ee : ℚ) (subs : List NumCue) : String :=
  if subs = [] then ""
  else (findLoop es ee subs ("", -1)).1

/-! ### `time_to_seconds_simple` (lines 169-185)

The Python function receives a time string, splits it on `'.'` into a
time part and an optional fractional part, splits the time part on
`':'`, and when that yields exactly three `int()`-parsable fields
returns `hours*3600 + minutes*60 + seconds + ms`; every failure path
(too many dots, wrong field count, unparsable field, unparsable
fraction) is caught by the surrounding `try/except` and yields `0`.
We model the string scaffolding on `List Char`. -/

/-- Python `str.split(sep)` for a single-character separator: split on
every occurrence, keeping empty fields. -/
def splitOnChar (c : Char) : List Char → List (List Char)
  | [] => [[]]
  | x :: xs =>
    let rest := splitOnChar c xs
    if x = c then [] :: rest
    else
      match rest with
      | [] => [[x]]
      | r :: rs => (x :: r) :: rs

/-- Numeric value of a digit list read in base 10 (helper for `int` /
`float` parsing). -/
def digitsVal : List Char → ℕ
  | [] => 0
  | d :: ds => (d.toNat - '0'.toNat) * 10 ^ ds.length + digitsVal ds

/-- Python `int(s)` on the fragment relevant to this program: optional
surrounding whitespace, an optional sign, then a nonempty run of
decimal digits; anything else raises `ValueError` (modelled as
`none`).  CPython additionally accepts underscore digit separators and
non-ASCII digits; those inputs are outside this model. -/
def pyInt (l : List Char) : Option ℤ :=
  let l := (l.dropWhile Char.isWhitespace).reverse.dropWhile Char.isWhitespace |>.reverse
  match l with
  | '-' :: ds => if ds ≠ [] ∧ ds.all Char.isDigit then some (-(digitsVal ds : ℤ)) else none
  | '+' :: ds => if ds ≠ [] ∧ ds.all Char.isDigit then some (digitsVal ds : ℤ) else none
  | ds => if ds ≠ [] ∧ ds.all Char.isDigit then some (digitsVal ds : ℤ) else none

/-- Python `float("0." + ms_part)` on the fragment relevant to this
program: when `ms_part` is a (possibly empty) run of decimal digits
the result is the fractional value `digits / 10^len`; anything else
raises `ValueError` (modelled as `none`).  CPython additionally
accepts exponents, underscores and trailing whitespace there; those
inputs are outside this model. -/
def pyFrac (ms : List Char) : Option ℚ :=
  if ms.all Char.isDigit then some ((digitsVal ms : ℚ) / 10 ^ ms.length) else none

/-- Lines 179-183 of `compare-subs.py`: split the time part on `':'`;
with exactly three `int()`-parsable fields the value is
`hours * 3600 + minutes * 60 + seconds + ms`, any other field count
returns `0`, and an unparsable field raises (caught as `0`). -/
def hmsVal (time_part : List Char) (ms : ℚ) : ℚ :=
  match splitOnChar ':' time_part with
  | [h, m, s] =>
    match pyInt h, pyInt m, pyInt s with
    | some hv, some mv, some sv => (hv : ℚ) * 3600 + (mv : ℚ) * 60 + (sv : ℚ) + ms
    | _, _, _ => 0
  | _ => 0

/-- `time_to_seconds_simple` (lines 169-185) over `List Char`.
Splitting on `'.'` yields one part (no dot: `ms = 0`) or two parts
(`ms = float("0." + ms_part)`); three or more parts make the tuple
unpacking raise, caught by the `except` as `0`. -/
def timeToSecondsList (l : List Char) : ℚ :=
  match splitOnChar '.' l with
  | [time_part] => hmsVal time_part 0
  | [time_part, ms_part] =>
    match pyFrac ms_part with
    | some ms => hmsVal time_part ms
    | none => 0
  | _ => 0

/-- `time_to_seconds_simple` on strings. -/
def time_to_seconds_simple (time_str : String) : ℚ :=
  timeToSecondsList time_str.toList

/-- One candidate cue as stored in the track before time conversion:
(start string, end string, text). -/
abbrev StrCue := String × String × String

/-- Conversion of one candidate cue's times to seconds, as done at
lines 202-203 inside the loop of `find_best_match_simple`. -/
def toNumCue (x : StrCue) : NumCue :=
  (time_to_seconds_simple x.1, time_to_seconds_simple x.2.1, x.2.2)

/-- `find_best_match_simple` (lines 187-216) on the string-level data it
actually receives: convert the reference times (lines 192-193) and each
candidate's times (lines 202-203) with `time_to_seconds_simple`, then
select as in `findBestMatchNum`. -/
def find_best_match_simple (eng_start eng_end : String)
    (persian_subs : List StrCue) : String :=
  findBestMatchNum (time_to_seconds_simple eng_start) (time_to_seconds_simple eng_end)
    (persian_subs.map toNumCue)

/-- The score of a whole candidate cue. -/
def scoreOf (es ee : ℚ) (x : NumCue) : ℚ :=
  score es ee x.1 x.2.1

/-- The shape check of lines 172-177: the reference string splits on
`'.'` into a time part `tp` and a fractional value `ms` (zero when
there is no dot, otherwise the value of `float("0." + ms_part)`). -/
def SplitsAs (s : String) (tp : List Char) (ms : ℚ) : Prop :=
  (splitOnChar '.' s.toList = [tp] ∧ ms = 0) ∨
    (∃ mp, splitOnChar '.' s.toList = [tp, mp] ∧ pyFrac mp = some ms)

/-- The shape check of lines 179-181: the time part consists of exactly
three colon-separated `int()`-parsable fields with values `h`, `m`, `sec`. -/
def FieldsAs (tp : List Char) (h m sec : ℤ) : Prop :=
  ∃ f₁ f₂ f₃, splitOnChar ':' tp = [f₁, f₂, f₃] ∧
    pyInt f₁ = some h ∧ pyInt f₂ = some m ∧ pyInt f₃ = some sec

/-- `findBestMatchNum` on a nonempty track is the final `best_match` of
the scan. -/
lemma findBestMatchNum_cons (es ee : ℚ) (x : NumCue) (subs : List NumCue) :
    findBestMatchNum es ee (x :: subs) = (findLoop es ee (x :: subs) ("", -1)).1 := by
  simp [findBestMatchNum]

/-- If no non-blank candidate in the remaining track strictly beats the
current best score, the scan leaves the accumulator unchanged. -/
lemma findLoop_keep (es ee : ℚ) (l : List NumCue) :
    ∀ (b : String) (bs : ℚ),
      (∀ x ∈ l, isBlank x.2.2 = false → scoreOf es ee x ≤ bs) →
      findLoop es ee l (b, bs) = (b, bs) := by
  induction l with
  | nil => intro b bs _; rfl
  | cons x rest ih =>
    intro b bs h
    obtain ⟨ps, pe, t⟩ := x
    by_cases hb : isBlank t = true
    · rw [findLoop, if_pos hb]
      exact ih b bs fun y hy hyb => h y (List.mem_cons_of_mem _ hy) hyb
    · have hb' : isBlank t = false := by simpa using hb
      have hle : score es ee ps pe ≤ bs := h (ps, pe, t) (List.mem_cons_self _ _) hb'
      rw [findLoop, if_neg hb, if_neg (not_lt.mpr hle)]
      exact ih b bs fun y hy hyb => h y (List.mem_cons_of_mem _ hy) hyb

/-- If a non-blank candidate `c` strictly beats the current best score
and every other non-blank candidate scores strictly below `c`, the scan
ends with `c`'s text and score. -/
lemma findLoop_finds (es ee : ℚ) (c : NumCue) (l : List NumCue) :
    ∀ (b : String) (bs : ℚ), c ∈ l →
      isBlank c.2.2 = false → bs < scoreOf es ee c →
      (∀ x ∈ l, x ≠ c → isBlank x.2.2 = false → scoreOf es ee x < scoreOf es ee c) →
      findLoop es ee l (b, bs) = (c.2.2, scoreOf es ee c) := by
  induction l with
  | nil => intro b bs hc _ _ _; exact absurd hc (List.not_mem_nil c)
  | cons x rest ih =>
    intro b bs hc hcb hbs hmax
    obtain ⟨ps, pe, t⟩ := x
    by_cases hx : (ps, pe, t) = c
    · subst hx
      have hb : ¬ (isBlank t = true) := by simp only [hcb]; exact Bool.false_ne_true
      rw [findLoop, if_neg hb, if_pos (show score es ee ps pe > bs from hbs)]
      exact findLoop_keep es ee rest t _ fun y hy hyb => by
        by_cases hyc : y = (ps, pe, t)
        · subst hyc; exact le_refl _
        · exact (hmax y (List.mem_cons_of_mem _ hy) hyc hyb).le
    · have hcr : c ∈ rest := by
        rcases List.mem_cons.mp hc with h | h
        · exact absurd h.symm hx
        · exact h
      by_cases hb : isBlank t = true
      · rw [findLoop, if_pos hb]
        exact ih b bs hcr hcb hbs fun y hy => hmax y (List.mem_cons_of_mem _ hy)
      · have hb' : isBlank t = false := by simpa using hb
        have hlt : score es ee ps pe < scoreOf es ee c :=
          hmax (ps, pe, t) (List.mem_cons_self _ _) hx hb'
        by_cases hgt : score es ee ps pe > bs
        · rw [findLoop, if_neg hb, if_pos hgt]
          exact ih t _ hcr hcb hlt fun y hy => hmax y (List.mem_cons_of_mem _ hy)
        · rw [findLoop, if_neg hb, if_neg hgt]
          exact ih b bs hcr hcb hbs fun y hy => hmax y (List.mem_cons_of_mem _ hy)

/-- If a non-blank candidate `c` strictly beats the current best score,
every earlier candidate scores strictly below `c` and every later one
scores at most `c`'s score (ties allowed), the scan ends with `c`. -/
lemma findLoop_first (es ee : ℚ) (c : NumCue) (l₂ : List NumCue)
    (hcb : isBlank c.2.2 = false)
    (hpost : ∀ x ∈ l₂, isBlank x.2.2 = false → scoreOf es ee x ≤ scoreOf es ee c) :
    ∀ (l₁ : List NumCue) (b : String) (bs : ℚ), bs < scoreOf es ee c →
      (∀ x ∈ l₁, isBlank x.2.2 = false → scoreOf es ee x < scoreOf es ee c) →
      findLoop es ee (l₁ ++ c :: l₂) (b, bs) = (c.2.2, scoreOf es ee c) := by
  intro l₁
  induction l₁ with
  | nil =>
    intro b bs hbs _
    obtain ⟨ps, pe, t⟩ := c
    have hb : ¬ (isBlank t = true) := by simp only [hcb]; exact Bool.false_ne_true
    rw [List.nil_append, findLoop, if_neg hb, if_pos (show score es ee ps pe > bs from hbs)]
    exact findLoop_keep es ee l₂ t _ hpost
  | cons x rest ih =>
    intro b bs hbs hpre
    obtain ⟨ps, pe, t⟩ := x
    by_cases hb : isBlank t = true
    · rw [List.cons_append, findLoop, if_pos hb]
      exact ih b bs hbs fun y hy => hpre y (List.mem_cons_of_mem _ hy)
    · have hb' : isBlank t = false := by simpa using hb
      have hlt : score es ee ps pe < scoreOf es ee c :=
        hpre (ps, pe, t) (List.mem_cons_self _ _) hb'
      by_cases hgt : score es ee ps pe > bs
      · rw [List.cons_append, findLoop, if_neg hb, if_pos hgt]
        exact ih t _ hlt fun y hy => hpre y (List.mem_cons_of_mem _ hy)
      · rw [List.cons_append, findLoop, if_neg hb, if_neg hgt]
        exact ih b bs hbs fun y hy => hpre y (List.mem_cons_of_mem _ hy)

/-- The scan returns either the initial best text or the text of some
non-blank candidate of the track. -/
lemma findLoop_mem (es ee : ℚ) (l : List NumCue) :
    ∀ (b : String) (bs : ℚ),
      (findLoop es ee l (b, bs)).1 = b ∨
        ∃ x ∈ l, isBlank x.2.2 = false ∧ x.2.2 = (findLoop es ee l (b, bs)).1 := by
  induction l with
  | nil => intro b bs; left; rfl
  | cons x rest ih =>
    intro b bs
    obtain ⟨ps, pe, t⟩ := x
    by_cases hb : isBlank t = true
    · rw [findLoop, if_pos hb]
      rcases ih b bs with h | ⟨y, hy, hyb, hye⟩
      · exact Or.inl h
      · exact Or.inr ⟨y, List.mem_cons_of_mem _ hy, hyb, hye⟩
    · have hb' : isBlank t = false := by simpa using hb
      by_cases hgt : score es ee ps pe > bs
      · rw [findLoop, if_neg hb, if_pos hgt]
        rcases ih t (score es ee ps pe) with h | ⟨y, hy, hyb, hye⟩
        · exact Or.inr ⟨(ps, pe, t), List.mem_cons_self _ _, hb', h.symm⟩
        · exact Or.inr ⟨y, List.mem_cons_of_mem _ hy, hyb, hye⟩
      · rw [findLoop, if_neg hb, if_neg hgt]
        rcases ih b bs with h | ⟨y, hy, hyb, hye⟩
        · exact Or.inl h
        · exact Or.inr ⟨y, List.mem_cons_of_mem _ hy, hyb, hye⟩

/-- When the time part has exactly three parsable fields, `hmsVal`
computes the clock value plus the fractional part. -/
lemma hmsVal_of_fields (tp : List Char) (h m sec : ℤ) (ms : ℚ)
    (hf : FieldsAs tp h m sec) :
    hmsVal tp ms = (h : ℚ) * 3600 + (m : ℚ) * 60 + (sec : ℚ) + ms := by
  obtain ⟨f₁, f₂, f₃, he, h1, h2, h3⟩ := hf
  simp only [hmsVal, he, h1, h2, h3]

/-- When the time part does not have three parsable fields, `hmsVal`
falls back to `0`. -/
lemma hmsVal_of_no_fields (tp : List Char) (ms : ℚ)
    (hf : ∀ h m sec : ℤ, ¬ FieldsAs tp h m sec) :
    hmsVal tp ms = 0 := by
  simp only [hmsVal]
  split
  next f₁ f₂ f₃ he =>
    split
    next hv mv sv h1 h2 h3 => exact absurd ⟨f₁, f₂, f₃, he, h1, h2, h3⟩ (hf hv mv sv)
    next => rfl
  next => rfl

/-- C10: `time_to_seconds_simple` is total and never raises: when the
input splits on `'.'` into a time part and (optionally) a parsable
fractional part, and the time part consists of exactly three
colon-separated `int()`-parsable fields `H`, `M`, `S`, the result is
`H*3600 + M*60 + S` plus the fractional part; in every other case
(wrong field count, unparsable field, extra dots, unparsable fraction)
the result is `0`. -/
theorem time_to_seconds_simple_spec (s : String) :
    (∀ (tp : List Char) (ms : ℚ) (h m sec : ℤ), SplitsAs s tp ms → FieldsAs tp h m sec →
        time_to_seconds_simple s = (h : ℚ) * 3600 + (m : ℚ) * 60 + (sec : ℚ) + ms) ∧
      ((∀ (tp : List Char) (ms : ℚ) (h m sec : ℤ), ¬ (SplitsAs s tp ms ∧ FieldsAs tp h m sec)) →
        time_to_seconds_simple s = 0) := by
  constructor
  · intro tp ms h m sec hsp hf
    rcases hsp with ⟨he, rfl⟩ | ⟨mp, he, hpf⟩
    · simp only [time_to_seconds_simple, timeToSecondsList, he]
      exact hmsVal_of_fields tp h m sec 0 hf
    · simp only [time_to_seconds_simple, timeToSecondsList, he, hpf]
      exact hmsVal_of_fields tp h m sec ms hf
  · intro hbad
    simp only [time_to_seconds_simple, timeToSecondsList]
    split
    next tp he =>
      apply hmsVal_of_no_fields
      intro h m sec hf
      exact hbad tp 0 h m sec ⟨Or.inl ⟨he, rfl⟩, hf⟩
    next tp mp he =>
      split
      next ms hpf =>
        apply hmsVal_of_no_fields
        intro h m sec hf
        exact hbad tp ms h m sec ⟨Or.inr ⟨mp, he, hpf⟩, hf⟩
      next => rfl
    next => rfl

/-- Witness for C10: "1:2:3.5" parses to 3723.5 seconds. -/
theorem time_to_seconds_simple_spec_witness :
    time_to_seconds_simple "1:2:3.5" = 7447 / 2 := by
  have hd : digitsVal ['5'] = 5 := by decide
  have hall : List.all ['5'] Char.isDigit = true := by decide
  have hfrac : pyFrac ['5'] = some (1 / 2) := by
    rw [pyFrac, if_pos hall, hd]
    norm_num
  have h := (time_to_seconds_simple_spec "1:2:3.5").1 "1:2:3".toList (1 / 2) 1 2 3
    (Or.inr ⟨['5'], by decide, hfrac⟩)
    ⟨['1'], ['2'], ['3'], by decide, by decide, by decide, by decide⟩
  rw [h]; norm_num

/-- C1 (counterexample): the candidate with the strictly greatest
overlap is not always returned.  For ref (0, 10), candidate B with
window (8, 9.2) has overlap 1.2, strictly more than A's overlap 1,
yet the selection (which scores `overlap*10 - |Δstart|`) returns "A". -/
theorem bestMatch_max_overlap_cex :
    overlap 0 10 8 (46/5) > overlap 0 10 0 1 ∧
      findBestMatchNum 0 10 [(0, 1, "A"), (8, 46/5, "B")] = "A" ∧ ("A" : String) ≠ "B" := by
  have hA : isBlank "A" = false := by decide
  have hB : isBlank "B" = false := by decide
  refine ⟨by norm_num [overlap], ?_, by decide⟩
  rw [findBestMatchNum_cons]
  norm_num [findLoop, score, overlap, hA, hB, abs_of_nonneg, abs_of_nonpos]

/-- C1 (amended): `find_best_match_simple` returns the text of the
candidate with the maximal score `overlap*10 - |ref.start - cand.start|`
among non-blank candidates: any non-blank candidate whose score is above
the initial `-1` and strictly greater than that of every other non-blank
candidate is the one whose text is returned. -/
theorem bestMatch_max_score (es ee : ℚ) (subs : List NumCue) (ps pe : ℚ) (t : String)
    (hmem : (ps, pe, t) ∈ subs) (hb : isBlank t = false)
    (hgt : -1 < score es ee ps pe)
    (hmax : ∀ x ∈ subs, x ≠ (ps, pe, t) → isBlank x.2.2 = false →
      score es ee x.1 x.2.1 < score es ee ps pe) :
    findBestMatchNum es ee subs = t := by
  rw [findBestMatchNum, if_neg (List.ne_nil_of_mem hmem),
    findLoop_finds es ee (ps, pe, t) subs "" (-1) hmem hb hgt hmax]

/-- Witness for C1 (amended). -/
theorem bestMatch_max_score_witness :
    findBestMatchNum 1 3 [(2, 4, "B")] = "B" :=
  bestMatch_max_score 1 3 [(2, 4, "B")] 2 4 "B" (List.mem_singleton.mpr rfl) (by decide)
    (by norm_num [score, overlap, abs_of_nonneg, abs_of_nonpos])
    (fun x hx hne _ => absurd (List.mem_singleton.mp hx) hne)

/-- C2 (counterexample): a track in which no candidate overlaps the
reference window does not always yield the empty string: for ref
(1, 1.2) the candidate (1.5, 2, "X") has overlap 0, yet its score
`0*10 - |1 - 1.5| = -0.5` beats the initial `-1` and "X" is returned. -/
theorem bestMatch_empty_result_cex :
    overlap 1 (6/5) (3/2) 2 = 0 ∧
      findBestMatchNum 1 (6/5) [(3/2, 2, "X")] = "X" ∧ ("X" : String) ≠ "" := by
  have hX : isBlank "X" = false := by decide
  refine ⟨by norm_num [overlap], ?_, by decide⟩
  rw [findBestMatchNum_cons]
  norm_num [findLoop, score, overlap, hX, abs_of_nonneg, abs_of_nonpos]

/-- C2 (amended): `find_best_match_simple` returns the empty string when
the track is empty, or when every non-blank candidate's score
`overlap*10 - |ref.start - cand.start|` is at most the initial `-1`
(in particular this covers every track whose cues are all blank). -/
theorem bestMatch_empty_result (es ee : ℚ) (subs : List NumCue)
    (h : subs = [] ∨ ∀ x ∈ subs, isBlank x.2.2 = false → score es ee x.1 x.2.1 ≤ -1) :
    findBestMatchNum es ee subs = "" := by
  rcases h with rfl | h
  · simp [findBestMatchNum]
  · cases subs with
    | nil => simp [findBestMatchNum]
    | cons x rest =>
      rw [findBestMatchNum_cons, findLoop_keep es ee (x :: rest) "" (-1) h]

/-- Witness for C2 (amended). -/
theorem bestMatch_empty_result_witness :
    findBestMatchNum 0 1 [(5, 6, "X")] = "" :=
  bestMatch_empty_result 0 1 [(5, 6, "X")] (Or.inr (by
    intro x hx _
    obtain rfl := List.mem_singleton.mp hx
    norm_num [score, overlap, abs_of_nonneg, abs_of_nonpos]))

/-- C3 (counterexample): with two candidates of identical positive
overlap (and no candidate of greater overlap), the first in track order
is not always returned: for ref (0, 10), candidates A = (8, 9) and
B = (0, 1) both have overlap 1, but B's smaller start difference gives
it the higher score, so "B" is returned instead of the earlier "A". -/
theorem bestMatch_tie_order_cex :
    overlap 0 10 8 9 = 1 ∧ overlap 0 10 0 1 = 1 ∧
      findBestMatchNum 0 10 [(8, 9, "A"), (0, 1, "B")] = "B" ∧ ("B" : String) ≠ "A" := by
  have hA : isBlank "A" = false := by decide
  have hB : isBlank "B" = false := by decide
  refine ⟨by norm_num [overlap], by norm_num [overlap], ?_, by decide⟩
  rw [findBestMatchNum_cons]
  norm_num [findLoop, score, overlap, hA, hB, abs_of_nonneg, abs_of_nonpos]

/-- C3 (amended): ties are broken by input order only at equal score:
when two non-blank candidates have identical (positive) overlap and
identical start difference (hence identical score), that score is above
`-1`, and every other non-blank candidate scores strictly lower, the
earlier of the two in track order is the one whose text is returned. -/
theorem bestMatch_tie_first (es ee : ℚ) (l₁ l₂ l₃ : List NumCue)
    (ps₁ pe₁ : ℚ) (t₁ : String) (ps₂ pe₂ : ℚ) (t₂ : String)
    (hb₁ : isBlank t₁ = false) (hb₂ : isBlank t₂ = false)
    (hovpos : 0 < overlap es ee ps₁ pe₁)
    (hov : overlap es ee ps₁ pe₁ = overlap es ee ps₂ pe₂)
    (hdiff : |es - ps₁| = |es - ps₂|)
    (hgt : -1 < score es ee ps₁ pe₁)
    (hothers : ∀ x ∈ l₁ ++ l₂ ++ l₃, isBlank x.2.2 = false →
      score es ee x.1 x.2.1 < score es ee ps₁ pe₁) :
    findBestMatchNum es ee (l₁ ++ (ps₁, pe₁, t₁) :: (l₂ ++ (ps₂, pe₂, t₂) :: l₃)) = t₁ := by
  have hsc : score es ee ps₂ pe₂ = score es ee ps₁ pe₁ := by
    rw [score, score, hov, hdiff]
  have hpost : ∀ x ∈ l₂ ++ (ps₂, pe₂, t₂) :: l₃, isBlank x.2.2 = false →
      scoreOf es ee x ≤ scoreOf es ee (ps₁, pe₁, t₁) := by
    intro x hx hxb
    rcases List.mem_append.mp hx with h | h
    · exact (hothers x (List.mem_append.mpr (Or.inl (List.mem_append.mpr (Or.inr h)))) hxb).le
    · rcases List.mem_cons.mp h with rfl | h
      · exact le_of_eq hsc
      · exact (hothers x (List.mem_append.mpr (Or.inr h)) hxb).le
  have hpre : ∀ x ∈ l₁, isBlank x.2.2 = false →
      scoreOf es ee x < scoreOf es ee (ps₁, pe₁, t₁) := by
    intro x hx hxb
    exact hothers x (List.mem_append.mpr (Or.inl (List.mem_append.mpr (Or.inl hx)))) hxb
  have hne : l₁ ++ (ps₁, pe₁, t₁) :: (l₂ ++ (ps₂, pe₂, t₂) :: l₃) ≠ [] := by simp
  rw [findBestMatchNum, if_neg hne,
    findLoop_first es ee (ps₁, pe₁, t₁) (l₂ ++ (ps₂, pe₂, t₂) :: l₃) hb₁ hpost l₁ "" (-1) hgt hpre]

/-- Witness for C3 (amended): two identical windows, the earlier text wins. -/
theorem bestMatch_tie_first_witness :
    findBestMatchNum 0 10 [(2, 3, "P"), (2, 3, "Q")] = "P" :=
  bestMatch_tie_first 0 10 [] [] [] 2 3 "P" 2 3 "Q" (by decide) (by decide)
    (by norm_num [overlap]) rfl rfl
    (by norm_num [score, overlap, abs_of_nonneg, abs_of_nonpos])
    (by intro x hx; simp at hx)

/-- C4 (counterexample): a zero-length reference cue yields zero overlap
with every candidate, but the result on a non-empty track is not always
the empty string: for ref (5, 5) the candidate (4.5, 5, "X") has score
`0*10 - |5 - 4.5| = -0.5 > -1`, so "X" is returned. -/
theorem bestMatch_zero_length_cex :
    overlap 5 5 (9/2) 5 = 0 ∧
      findBestMatchNum 5 5 [(9/2, 5, "X")] = "X" ∧ ("X" : String) ≠ "" := by
  have hX : isBlank "X" = false := by decide
  refine ⟨by norm_num [overlap], ?_, by decide⟩
  rw [findBestMatchNum_cons]
  norm_num [findLoop, score, overlap, hX, abs_of_nonneg, abs_of_nonpos]

/-- C4 (amended): for a zero-length reference cue every candidate's
overlap is zero, and the result is the empty string provided every
non-blank candidate starts at least 1 second away from the reference
start (so that its score `-|Δstart|` stays at or below the initial `-1`). -/
theorem bestMatch_zero_length (es : ℚ) (subs : List NumCue)
    (h : ∀ x ∈ subs, isBlank x.2.2 = false → 1 ≤ |es - x.1|) :
    (∀ ps pe : ℚ, overlap es es ps pe = 0) ∧ findBestMatchNum es es subs = "" := by
  have hov : ∀ ps pe : ℚ, overlap es es ps pe = 0 := by
    intro ps pe
    have h1 : min es pe ≤ es := min_le_left es pe
    have h2 : es ≤ max es ps := le_max_left es ps
    exact max_eq_left (by linarith)
  refine ⟨hov, ?_⟩
  cases subs with
  | nil => simp [findBestMatchNum]
  | cons x rest =>
    have hkeep : ∀ y ∈ x :: rest, isBlank y.2.2 = false → scoreOf es es y ≤ -1 := by
      intro y hy hyb
      have hd := h y hy hyb
      have hovy := hov y.1 y.2.1
      simp only [scoreOf, score, hovy]
      linarith
    rw [findBestMatchNum_cons, findLoop_keep es es (x :: rest) "" (-1) hkeep]

/-- Witness for C4 (amended). -/
theorem bestMatch_zero_length_witness :
    overlap 5 5 3 9 = 0 ∧ findBestMatchNum 5 5 [(7, 8, "X")] = "" := by
  have h : ∀ x ∈ [((7 : ℚ), (8 : ℚ), "X")], isBlank x.2.2 = false → 1 ≤ |(5 : ℚ) - x.1| := by
    intro x hx _
    obtain rfl := List.mem_singleton.mp hx
    show (1 : ℚ) ≤ |(5 : ℚ) - 7|
    rw [abs_of_nonpos (by norm_num)]
    norm_num
  exact ⟨(bestMatch_zero_length 5 [((7 : ℚ), (8 : ℚ), "X")] h).1 3 9,
    (bestMatch_zero_length 5 [((7 : ℚ), (8 : ℚ), "X")] h).2⟩

/-- C5 (counterexample): when exactly one candidate has positive overlap
its text is not always returned: for ref (0, 100), the only candidate
(99.9, 200, "A") has overlap 0.1 > 0, but its score
`0.1*10 - 99.9 = -98.9` never beats the initial `-1`, so the result is
the empty string. -/
theorem bestMatch_unique_overlap_cex :
    overlap 0 100 (999/10) 200 = 1/10 ∧ (0 : ℚ) < 1/10 ∧
      findBestMatchNum 0 100 [(999/10, 200, "A")] = "" ∧ ("" : String) ≠ "A" := by
  have hA : isBlank "A" = false := by decide
  refine ⟨by norm_num [overlap], by norm_num, ?_, by decide⟩
  rw [findBestMatchNum_cons]
  norm_num [findLoop, score, overlap, hA, abs_of_nonneg, abs_of_nonpos]

/-- C5 (amended): when exactly one candidate has positive overlap with
the reference window, its text is returned provided its score
`overlap*10 - |ref.start - cand.start|` is above the initial `-1` and
strictly greater than the score of every other non-blank candidate. -/
theorem bestMatch_unique_overlap (es ee : ℚ) (subs : List NumCue) (ps pe : ℚ) (t : String)
    (hmem : (ps, pe, t) ∈ subs) (hb : isBlank t = false)
    (hov : 0 < overlap es ee ps pe)
    (huniq : ∀ x ∈ subs, x ≠ (ps, pe, t) → overlap es ee x.1 x.2.1 = 0)
    (hgt : -1 < score es ee ps pe)
    (hmax : ∀ x ∈ subs, x ≠ (ps, pe, t) → isBlank x.2.2 = false →
      score es ee x.1 x.2.1 < score es ee ps pe) :
    findBestMatchNum es ee subs = t := by
  rw [findBestMatchNum, if_neg (List.ne_nil_of_mem hmem),
    findLoop_finds es ee (ps, pe, t) subs "" (-1) hmem hb hgt hmax]

/-- Witness for C5 (amended). -/
theorem bestMatch_unique_overlap_witness :
    findBestMatchNum 0 10 [(1, 2, "A"), (20, 30, "B")] = "A" := by
  apply bestMatch_unique_overlap 0 10 [(1, 2, "A"), (20, 30, "B")] 1 2 "A"
  · simp
  · decide
  · norm_num [overlap]
  · intro x hx hne
    rcases List.mem_cons.mp hx with rfl | hx
    · exact absurd rfl hne
    · obtain rfl := List.mem_singleton.mp hx
      norm_num [overlap]
  · norm_num [score, overlap, abs_of_nonneg, abs_of_nonpos]
  · intro x hx hne _
    rcases List.mem_cons.mp hx with rfl | hx
    · exact absurd rfl hne
    · obtain rfl := List.mem_singleton.mp hx
      norm_num [score, overlap, abs_of_nonneg, abs_of_nonpos]

/-- C6: the overlap computed inside the aligner is nonnegative for
every reference/candidate pair. -/
theorem overlap_nonneg (es ee ps pe : ℚ) : 0 ≤ overlap es ee ps pe :=
  le_max_left 0 _

/-- C7: on ref (1, 3) with candidates A = (0, 1.5) and B = (2, 4), the
overlaps are 0.5 and 1 and the selection returns "B". -/
theorem bestMatch_example_run :
    overlap 1 3 0 (3/2) = 1/2 ∧ overlap 1 3 2 4 = 1 ∧
      findBestMatchNum 1 3 [(0, 3/2, "A"), (2, 4, "B")] = "B" := by
  have hA : isBlank "A" = false := by decide
  have hB : isBlank "B" = false := by decide
  refine ⟨by norm_num [overlap], by norm_num [overlap], ?_⟩
  rw [findBestMatchNum_cons]
  norm_num [findLoop, score, overlap, hA, hB, abs_of_nonneg, abs_of_nonpos]

/-- C8: `find_best_match_simple` is total on well-typed input: for any
reference time strings and any finite candidate track it returns a
string, which is either empty or the text of some candidate of the
track; no error branch exists. -/
theorem bestMatch_total_range (eng_start eng_end : String) (persian_subs : List StrCue) :
    find_best_match_simple eng_start eng_end persian_subs = "" ∨
      find_best_match_simple eng_start eng_end persian_subs ∈
        persian_subs.map (fun x => x.2.2) := by
  by_cases hl : persian_subs = []
  · subst hl
    left
    simp [find_best_match_simple, findBestMatchNum]
  · have hl' : persian_subs.map toNumCue ≠ [] := by
      simpa using hl
    rw [find_best_match_simple, findBestMatchNum, if_neg hl']
    rcases findLoop_mem (time_to_seconds_simple eng_start) (time_to_seconds_simple eng_end)
        (persian_subs.map toNumCue) "" (-1) with h | ⟨x, hx, _, hxe⟩
    · exact Or.inl h
    · right
      obtain ⟨y, hy, rfl⟩ := List.mem_map.mp hx
      exact List.mem_map.mpr ⟨y, hy, hxe⟩

/-- C9: blank-texted candidate cues are skipped and never returned; the
result of the selection is always either the empty string or the text
of some candidate of the track whose text is non-blank. -/
theorem bestMatch_skips_blank (es ee : ℚ) (subs : List NumCue) :
    findBestMatchNum es ee subs = "" ∨
      ∃ x ∈ subs, isBlank x.2.2 = false ∧ x.2.2 = findBestMatchNum es ee subs := by
  by_cases hl : subs = []
  · subst hl
    left
    simp [findBestMatchNum]
  · rw [findBestMatchNum, if_neg hl]
    exact findLoop_mem es ee subs "" (-1)

end CompareSubs
